import Mathlib

/-
Verification of the HAREM XML-to-JSON converter (`xml_to_json.py`).

Strings are embedded as `List Char` (named `Str`); each Python method of the
`XMLtoJSON` class is embedded as a Lean function with the same name.  Python
exceptions are embedded with `Except Err`: an `AttributeError`,
`KeyError`, `IndexError`, `HypothesisViolation` or `ValueError` raised by the
Python code corresponds to an `Except.error` value here.
-/

set_option maxRecDepth 10000

abbrev Str := List Char

/-- Modelled from the spec: the helper `_is_whitespace_or_punctuation` is
imported from the repository's `utils` module, which is not among the sources;
the spec describes it as testing whether a character is whitespace or
punctuation.  Punctuation is taken to be the ASCII punctuation characters
(code points 33-47, 58-64, 91-96 and 123-126, i.e. Python
`string.punctuation`), whitespace the usual ASCII whitespace. -/
def _is_whitespace_or_punctuation (c : Char) : Bool :=
  c.isWhitespace ||
    (let n := c.toNat
     (33 ≤ n && n ≤ 47) || (58 ≤ n && n ≤ 64) ||
     (91 ≤ n && n ≤ 96) || (123 ≤ n && n ≤ 126))

/-- Python `str.lstrip()`: remove leading whitespace. -/
def lstrip (s : Str) : Str := s.dropWhile Char.isWhitespace

/-- Python `str.strip()`: remove leading and trailing whitespace. -/
def stripStr (s : Str) : Str := (lstrip (lstrip s).reverse).reverse

/-- Python `s.split('|')`: split a string on each pipe character, keeping
empty chunks (so the result always has `count of pipes + 1` elements). -/
def pipeSplit : Str → List Str
  | [] => [[]]
  | c :: cs =>
    if c = '|' then [] :: pipeSplit cs
    else
      match pipeSplit cs with
      | [] => [[c]]
      | r :: rs => (c :: r) :: rs

/-- Offsets of every pipe character in a string, in increasing order
(the result of `re.finditer` over the pattern matching a pipe). -/
def pipeDivs : Str → List Nat
  | [] => []
  | c :: cs =>
    (if c = '|' then [0] else []) ++ (pipeDivs cs).map (· + 1)

/-- Python slice index adjustment: a negative index counts from the end, and
the result is clamped to the interval from 0 to the length. -/
def pyIndexAdjust (len : Nat) (i : Int) : Nat :=
  let j := if i < 0 then i + len else i
  if j < 0 then 0 else if j > (len : Int) then len else j.toNat

/-- Python slicing `s[a:b]`. -/
def pySlice (s : Str) (a b : Int) : Str :=
  (s.take (pyIndexAdjust s.length b)).drop (pyIndexAdjust s.length a)

/-- The exceptions the converter can raise. -/
inductive Err where
  | attrError
  | keyError
  | indexError
  | hypothesisViolation
  | valueError
deriving DecidableEq, Repr

/-- The two ALT-resolution strategies accepted by the constructor. -/
inductive AltStrategy where
  | most_entities
  | entity_coverage
deriving DecidableEq, Repr

/-- The entity record built by `_convert_entity`.  Offsets are integers
because `_split_alternatives` shifts them by negative amounts. -/
structure Entity where
  entity_id : String
  text : Str
  label : Option Str
  start_offset : Int
  end_offset : Int
deriving DecidableEq, Repr

/-- The document record returned by `convert_document`. -/
structure Document where
  doc_id : String
  doc_text : Str
  entities : List Entity
deriving DecidableEq, Repr

/-- An XML element as exposed by the parser: tag name, attribute map,
optional inline text, ordered children, optional tail text. -/
structure Elem where
  tag : String
  attrib : List (String × String)
  text : Option Str
  children : List Elem
  tail : Option Str

/-- Attribute lookup, Python `elem.attrib.get(k)`. -/
def attrGet (k : String) (e : Elem) : Option String :=
  (e.attrib.find? (fun p => p.1 = k)).map Prod.snd

/-- The category lists `SELECTIVE_CATEGS` of the selective scenario. -/
def SELECTIVE_CATEGS : List Str :=
  ["PESSOA", "ORGANIZACAO", "LOCAL", "TEMPO", "VALOR"].map String.toList

/-- The category list `ALL_CATEGS` of the total scenario. -/
def ALL_CATEGS : List Str :=
  SELECTIVE_CATEGS ++
    (["ABSTRACCAO", "ACONTECIMENTO", "COISA", "OBRA", "OUTRO"].map
      String.toList)

/-- The converter configuration held by an `XMLtoJSON` instance. -/
structure XMLtoJSON where
  accepted_labels : List Str
  alt_strategy : AltStrategy
deriving DecidableEq, Repr

/-- The `XMLtoJSON.__init__` constructor (the strategy argument is already an
enumerated value here, so the `ValueError` branch of the constructor is
unrepresentable). -/
def XMLtoJSON.init (selective : Bool) (alt_strategy : AltStrategy) :
    XMLtoJSON :=
  { accepted_labels := if selective then SELECTIVE_CATEGS else ALL_CATEGS,
    alt_strategy := alt_strategy }

/-- `XMLtoJSON._shift_offset`: shift both offsets of an entity. -/
def shift_offset (entity : Entity) (group_offset : Int) : Entity :=
  { entity with
      start_offset := entity.start_offset + group_offset,
      end_offset := entity.end_offset + group_offset }

/-- `XMLtoJSON._get_label`: first pipe-delimited, stripped candidate of the
CATEG attribute that is among the accepted labels, else `none`. -/
def XMLtoJSON.get_label (cv : XMLtoJSON) (entity : Elem) : Option Str :=
  match attrGet "CATEG" entity with
  | none => none
  | some categ =>
    ((pipeSplit categ.toList).map stripStr).find?
      (fun label => cv.accepted_labels.contains label)

/-- `XMLtoJSON._convert_entity`: build an entity record from an EM element.
A missing inline text raises `AttributeError`; a missing ID attribute raises
`KeyError`. -/
def XMLtoJSON.convert_entity (cv : XMLtoJSON) (elem : Elem) :
    Except Err Entity :=
  match elem.text with
  | none => .error .attrError
  | some t =>
    let entity_text := lstrip t
    match attrGet "ID" elem with
    | none => .error .keyError
    | some id =>
      .ok { entity_id := id,
            text := entity_text,
            label := cv.get_label elem,
            start_offset := 0,
            end_offset := (entity_text.length : Int) }

/-- `XMLtoJSON.append_text_safe`: append `piece` to `text`, inserting one
space when the two boundary characters are both non-whitespace and
non-punctuation.  An empty `piece` raises `IndexError` whenever the Python
code would evaluate `piece[0]`. -/
def append_text_safe (text piece : Str) : Except Err Str :=
  match text.getLast? with
  | none => .ok (text ++ piece)
  | some c =>
    if _is_whitespace_or_punctuation c then .ok (text ++ piece)
    else
      match piece with
      | [] => .error .indexError
      | p :: _ =>
        if _is_whitespace_or_punctuation p then .ok (text ++ piece)
        else .ok (text ++ ' ' :: piece)

/-- `XMLtoJSON._avoid_word_agglutination`: return `text`, with one space
appended when concatenating `text` and `insertion` directly would fuse two
non-whitespace, non-punctuation characters. -/
def _avoid_word_agglutination (text insertion : Str) : Except Err Str :=
  match text.getLast? with
  | none => .ok text
  | some c =>
    if _is_whitespace_or_punctuation c then .ok text
    else
      match insertion with
      | [] => .error .indexError
      | p :: _ =>
        if _is_whitespace_or_punctuation p then .ok text
        else .ok (text ++ [' '])

/-- The loop of `XMLtoJSON._iterate_alt_tag` over the children of the ALT
element, carrying the accumulated text and entity list. -/
def XMLtoJSON.iterate_alt_go (cv : XMLtoJSON) :
    List Elem → Str → List Entity → Except Err (Str × List Entity)
  | [], text, entities => .ok (text, entities)
  | tag :: rest, text, entities =>
    if tag.tag = "EM" then do
      let entity ← cv.convert_entity tag
      let entities :=
        if entity.label.isSome then
          entities ++ [shift_offset entity (text.length : Int)]
        else entities
      let text ← append_text_safe text entity.text
      let text ←
        match tag.tail with
        | some tl => if tl ≠ [] then append_text_safe text tl else pure text
        | none => pure text
      cv.iterate_alt_go rest text entities
    else cv.iterate_alt_go rest text entities

/-- `XMLtoJSON._iterate_alt_tag`: flatten an ALT element into one probe
string and the list of entities that survived label resolution. -/
def XMLtoJSON.iterate_alt_tag (cv : XMLtoJSON) (alt_tag : Elem) :
    Except Err (Str × List Entity) :=
  cv.iterate_alt_go alt_tag.children (alt_tag.text.getD []) []

/-- The loop of `XMLtoJSON._split_alternatives` over the entity list,
carrying the group index, the offset of the current group's start, the offset
bounding the current group and the groups built so far. -/
def split_go (alt_text_len : Int) (divs : List Int) :
    List Entity → Nat → Int → Int → List (List Entity) →
    Except Err (List (List Entity))
  | [], _, _, _, groups => .ok groups
  | entity :: rest, group_ix, group_start_offset, current_group_end,
      groups =>
    let start := entity.start_offset
    let st :=
      if start > current_group_end then
        let gix := group_ix + 1
        let gstart := current_group_end + 1
        let gend :=
          if gix < divs.length then divs.getD gix 0
          else if gix = divs.length then alt_text_len
          else current_group_end
        (gix, gstart, gend)
      else (group_ix, group_start_offset, current_group_end)
    let entity := shift_offset entity (-st.2.1)
    if h : st.1 < groups.length then
      split_go alt_text_len divs rest st.1 st.2.1 st.2.2
        (groups.set st.1 (groups.get ⟨st.1, h⟩ ++ [entity]))
    else .error .indexError

/-- `XMLtoJSON._split_alternatives`: split the probe string on pipes and
partition the entities into one group per alternative, rebasing each
entity's offsets.  Fewer than two alternatives raises
`HypothesisViolation`. -/
def split_alternatives (alt_text : Str) (alt_entities : List Entity) :
    Except Err (List Str × List (List Entity)) :=
  let alt_texts := pipeSplit alt_text
  if alt_texts.length < 2 then .error .hypothesisViolation
  else
    let divs : List Int := (pipeDivs alt_text).map Int.ofNat
    match divs with
    | [] => .error .indexError
    | d0 :: _ => do
      let groups ← split_go (alt_text.length : Int) divs alt_entities
        0 0 d0 (List.replicate alt_texts.length [])
      .ok (alt_texts, groups)

/-- Python `max` of a list of naturals (`ValueError` on an empty list). -/
def pyMax : List Nat → Except Err Nat
  | [] => .error .valueError
  | x :: xs => .ok (xs.foldl Nat.max x)

/-- Python `list.index`: index of the first occurrence of a value
(`ValueError` when absent). -/
def pyIndex : List Nat → Nat → Except Err Nat
  | [], _ => .error .valueError
  | x :: xs, v =>
    if x = v then .ok 0 else (pyIndex xs v).map (· + 1)

/-- The per-group score used by each ALT strategy: `most_entities` counts the
group's entities, `entity_coverage` sums their text lengths. -/
def groupScore : AltStrategy → List Entity → Nat
  | .most_entities, group => group.length
  | .entity_coverage, group => (group.map (fun e => e.text.length)).sum

/-- `XMLtoJSON._handle_alt`: flatten, split, then choose one alternative by
the configured strategy (first index achieving the maximal score, the way
`list.index(max(scores))` does). -/
def XMLtoJSON.handle_alt (cv : XMLtoJSON) (alt_tag : Elem) :
    Except Err (Str × List Entity) := do
  let r ← cv.iterate_alt_tag alt_tag
  let sr ← split_alternatives r.1 r.2
  let scores := sr.2.map (groupScore cv.alt_strategy)
  let mx ← pyMax scores
  let N_max ← pyIndex scores mx
  .ok (sr.1.getD N_max [], sr.2.getD N_max [])

/-- `XMLtoJSON._convert_tag`: dispatch on the tag name, then append the tail
text behind the agglutination guard. -/
def XMLtoJSON.convert_tag (cv : XMLtoJSON) (tag : Elem) :
    Except Err (Str × List Entity) := do
  let r ←
    if tag.tag = "EM" then do
      let entity ← cv.convert_entity tag
      let entities := if entity.label.isSome then [entity] else []
      pure (entity.text, entities)
    else if tag.tag = "ALT" then
      cv.handle_alt tag
    else
      pure (([] : Str), ([] : List Entity))
  match tag.tail with
  | none => .ok r
  | some tl => do
    let text ← _avoid_word_agglutination r.1 tl
    .ok (text ++ tl, r.2)

/-- The loop of `XMLtoJSON.convert_document` over the children of the DOC
element. -/
def XMLtoJSON.convert_doc_go (cv : XMLtoJSON) :
    List Elem → Str → List Entity → Except Err (Str × List Entity)
  | [], text, entities => .ok (text, entities)
  | tag :: rest, text, entities => do
    let r ← cv.convert_tag tag
    let text ← _avoid_word_agglutination text r.1
    let shifted := r.2.map (fun e => shift_offset e (text.length : Int))
    let text ←
      if r.1 ≠ [] then append_text_safe text r.1 else pure text
    cv.convert_doc_go rest text (entities ++ shifted)

/-- `XMLtoJSON.convert_document`: convert a DOC element into a document
record. -/
def XMLtoJSON.convert_document (cv : XMLtoJSON) (doc : Elem) :
    Except Err Document := do
  if doc.tag ≠ "DOC" then .error .valueError
  else do
    let r ← cv.convert_doc_go doc.children (doc.text.getD []) []
    match attrGet "DOCID" doc with
    | none => .error .keyError
    | some docid =>
      .ok { doc_id := docid, doc_text := r.1, entities := r.2 }

/-- The offset-slice invariant for one entity against a document text, the
property asserted by the repository's tests: the slice equals the entity
text and the offsets are ordered and in bounds. -/
def entityAligned (doc_text : Str) (e : Entity) : Bool :=
  pySlice doc_text e.start_offset e.end_offset = e.text &&
    0 ≤ e.start_offset && e.start_offset < e.end_offset &&
    e.end_offset ≤ (doc_text.length : Int)

/-- The offset-slice invariant for a whole document record. -/
def documentAligned (d : Document) : Bool :=
  d.entities.all (entityAligned d.doc_text)

/-- The total-scenario converter with the `most_entities` strategy. -/
def cv_total_me : XMLtoJSON := XMLtoJSON.init false AltStrategy.most_entities
/-- The total-scenario converter with the `entity_coverage` strategy. -/
def cv_total_ec : XMLtoJSON :=
  XMLtoJSON.init false AltStrategy.entity_coverage
/-- An EM element with text `bc` used by concrete instantiations. -/
def emW : Elem :=
  Elem.mk "EM" [("ID", "1"), ("CATEG", "PESSOA")] (some ['b', 'c']) [] none
/-- An ALT element whose probe is `a|bc`, with one entity in segment 1. -/
def altW : Elem := Elem.mk "ALT" [] (some ['a', '|']) [emW] none
/-- The entity of `altW` relative to the probe string. -/
def entW : Entity :=
  Entity.mk "1" ['b', 'c'] (some "PESSOA".toList) 2 4
/-- The entity of `altW` rebased to segment 1. -/
def entW0 : Entity :=
  Entity.mk "1" ['b', 'c'] (some "PESSOA".toList) 0 2
/-- The EM element of the C5 counterexample: whitespace-only inline text,
so the extracted entity text is empty. -/
def emC5 : Elem :=
  Elem.mk "EM" [("ID", "1"), ("CATEG", "PESSOA")] (some [' ']) [] none
/-- The ALT element of the C5 counterexample, probe `x|` with the empty-text
entity in segment 1. -/
def altC5 : Elem := Elem.mk "ALT" [] (some ['x', '|']) [emC5] none
/-- The entity of `altC5` relative to the probe. -/
def entC5 : Entity := Entity.mk "1" [] (some "PESSOA".toList) 2 2
/-- The entity of `altC5` rebased to segment 1. -/
def entC5r : Entity := Entity.mk "1" [] (some "PESSOA".toList) 0 0
/-- The EM element of the C1 failing input: its text contains a pipe and it
sits inside an ALT element. -/
def emC1 : Elem :=
  Elem.mk "EM" [("ID", "1"), ("CATEG", "PESSOA")] (some ['a', '|', 'b']) []
    (some ['|', 'x'])
/-- The ALT element of the C1 failing input. -/
def altC1 : Elem := Elem.mk "ALT" [] none [emC1] none
/-- The DOC element of the C1 failing input. -/
def docC1 : Elem := Elem.mk "DOC" [("DOCID", "d1")] none [altC1] none
/-- The document record the converter returns for `docC1`. -/
def docC1_result : Document :=
  Document.mk "d1" ['a']
    [Entity.mk "1" ['a', '|', 'b'] (some "PESSOA".toList) 0 3]
/-- The EM element of the C3 failing input. -/
def emC3 : Elem :=
  Elem.mk "EM" [("ID", "1"), ("CATEG", "PESSOA")] (some ['z']) [] none
/-- The ALT element of the C3 failing input: inline text `x|y` ends in a
letter and the EM text starts with a letter, so the flattener inserts a
space after shifting the entity's offsets. -/
def altC3 : Elem := Elem.mk "ALT" [] (some ['x', '|', 'y']) [emC3] none
/-- The entity collected from `altC3`, with offsets 3..4. -/
def entC3 : Entity := Entity.mk "1" ['z'] (some "PESSOA".toList) 3 4
/-- Index of the first alternative segment whose span in the probe string
contains a given offset: the number of delimiter positions strictly below
the offset (for offsets that are not themselves delimiter positions). -/
def segIdx (divs : List Int) (s : Int) : Nat :=
  (divs.filter (fun d => d < s)).length
/-- Start position of alternative segment `i` in the probe string: 0 for
segment 0, one past the preceding delimiter otherwise. -/
def segStart (divs : List Int) : Nat → Int
  | 0 => 0
  | i + 1 => divs.getD i 0 + 1
/-- Modelled from the claim's words, as the reference partition to compare
`_split_alternatives` against: one group per segment, each entity placed in
the group of the first segment whose span contains its start offset, with
its offsets rebased by that segment's start position. -/
def specGroups (divs : List Int) (n : Nat) (es : List Entity) :
    List (List Entity) :=
  (List.range n).map (fun i =>
    (es.filter (fun e => segIdx divs e.start_offset = i)).map
      (fun e => shift_offset e (-(segStart divs i))))
/-- The no-skip condition on an entity list: the containing-segment index
of the first entity is at most 1, and each subsequent entity's
containing-segment index is between the previous one and one past it. -/
def noSkip (divs : List Int) : Nat → List Entity → Bool
  | _, [] => true
  | prev, e :: rest =>
    (decide (prev ≤ segIdx divs e.start_offset) &&
     decide (segIdx divs e.start_offset ≤ prev + 1)) &&
      noSkip divs (segIdx divs e.start_offset) rest
/-- First entity of the C2 counterexample probe `a|b|c`. -/
def entC2a : Entity := Entity.mk "1" ['a'] (some "PESSOA".toList) 0 1
/-- Second entity of the C2 counterexample, with start offset 4, inside
segment 2 of the probe `a|b|c`. -/
def entC2b : Entity := Entity.mk "2" ['c'] (some "PESSOA".toList) 4 5
/-- The second C2 entity as the code rebases it (assigned to segment 1). -/
def entC2b1 : Entity := Entity.mk "2" ['c'] (some "PESSOA".toList) 2 3
/-- The first EM child of the C2 counterexample ALT element. -/
def emC2a : Elem :=
  Elem.mk "EM" [("ID", "1"), ("CATEG", "PESSOA")] (some ['a']) []
    (some ['|', 'b', '|'])
/-- The second EM child of the C2 counterexample ALT element. -/
def emC2b : Elem :=
  Elem.mk "EM" [("ID", "2"), ("CATEG", "PESSOA")] (some ['c']) [] none
/-- The C2 counterexample ALT element, flattening to probe `a|b|c` with
entities in segments 0 and 2 and none in segment 1. -/
def altC2 : Elem := Elem.mk "ALT" [] none [emC2a, emC2b] none

/-! Theorems -/
lemma convert_entity_ok (cv : XMLtoJSON) (elem : Elem) (t : Str)
    (id : String) (ht : elem.text = some t)
    (hid : attrGet "ID" elem = some id) :
    cv.convert_entity elem =
      .ok { entity_id := id,
            text := lstrip t,
            label := cv.get_label elem,
            start_offset := 0,
            end_offset := ((lstrip t).length : Int) } := by
  simp [XMLtoJSON.convert_entity, ht, hid]
/-- C7: for every EM element with an ID attribute and inline text,
`_convert_entity` returns an entity whose text is the inline text with
leading whitespace stripped (`lstrip`, which keeps trailing whitespace),
whose offsets are 0 and the length of that stripped text, and whose label is
the result of `_get_label`. -/
theorem c7_convert_entity_spec (cv : XMLtoJSON) (elem : Elem) (t : Str)
    (id : String) (_htag : elem.tag = "EM") (ht : elem.text = some t)
    (hid : attrGet "ID" elem = some id) :
    cv.convert_entity elem =
      .ok { entity_id := id,
            text := lstrip t,
            label := cv.get_label elem,
            start_offset := 0,
            end_offset := ((lstrip t).length : Int) } :=
  convert_entity_ok cv elem t id ht hid
/-- Witness for C7 at the element of the spec's leading-space example. -/
theorem c7_witness :
    (XMLtoJSON.init false AltStrategy.most_entities).convert_entity
      (Elem.mk "EM" [("ID", "205"), ("CATEG", "VALOR")]
        (some [' ', '6', '7']) [] none) =
      .ok { entity_id := "205",
            text := ['6', '7'],
            label := some "VALOR".toList,
            start_offset := 0,
            end_offset := 2 } := by
  have h := c7_convert_entity_spec
    (XMLtoJSON.init false AltStrategy.most_entities)
    (Elem.mk "EM" [("ID", "205"), ("CATEG", "VALOR")]
      (some [' ', '6', '7']) [] none)
    [' ', '6', '7'] "205" rfl rfl rfl
  rw [h]
  rfl
/-- C9: `append_text_safe` inserts exactly one space when the two boundary
characters are both non-whitespace and non-punctuation, and concatenates
directly when the left text is empty or either boundary character is
whitespace or punctuation. -/
theorem c9_append_text_safe_spec :
    (∀ (t p : Str) (c q : Char) (ps : Str), t.getLast? = some c →
      p = q :: ps → _is_whitespace_or_punctuation c = false →
      _is_whitespace_or_punctuation q = false →
      append_text_safe t p = .ok (t ++ ' ' :: p)) ∧
    (∀ p : Str, append_text_safe [] p = .ok p) ∧
    (∀ (t p : Str) (c : Char), t.getLast? = some c →
      _is_whitespace_or_punctuation c = true →
      append_text_safe t p = .ok (t ++ p)) ∧
    (∀ (t p : Str) (c q : Char) (ps : Str), t.getLast? = some c →
      p = q :: ps → _is_whitespace_or_punctuation c = false →
      _is_whitespace_or_punctuation q = true →
      append_text_safe t p = .ok (t ++ p)) := by
  refine ⟨?_, ?_, ?_, ?_⟩
  · intro t p c q ps hc hp hcf hqf
    simp [append_text_safe, hc, hp, hcf, hqf]
  · intro p
    simp [append_text_safe]
  · intro t p c hc hct
    simp [append_text_safe, hc, hct]
  · intro t p c q ps hc hp hcf hqt
    simp [append_text_safe, hc, hp, hcf, hqt]
/-- Witness for C9 on concrete boundary characters of each kind. -/
theorem c9_witness :
    append_text_safe ['a'] ['b'] = .ok ['a', ' ', 'b'] ∧
    append_text_safe [] ['b'] = .ok ['b'] ∧
    append_text_safe [' '] ['b'] = .ok [' ', 'b'] ∧
    append_text_safe ['a'] ['-', 'b'] = .ok ['a', '-', 'b'] :=
  ⟨c9_append_text_safe_spec.1 ['a'] ['b'] 'a' 'b' [] rfl rfl
      (by decide) (by decide),
   c9_append_text_safe_spec.2.1 ['b'],
   c9_append_text_safe_spec.2.2.1 [' '] ['b'] ' ' rfl (by decide),
   c9_append_text_safe_spec.2.2.2 ['a'] ['-', 'b'] 'a' '-' ['b'] rfl rfl
      (by decide) (by decide)⟩
/-- C10: for every element whose tag is neither EM nor ALT, `_convert_tag`
returns no entities and a text equal to just the element's tail text (empty
when the tail is absent); the element's inline text and children are
discarded. -/
theorem c10_convert_tag_other_tags (cv : XMLtoJSON) (tag : Elem)
    (hEM : tag.tag ≠ "EM") (hALT : tag.tag ≠ "ALT") :
    cv.convert_tag tag = .ok (tag.tail.getD [], []) := by
  unfold XMLtoJSON.convert_tag
  simp only [hEM, hALT, if_false, if_neg]
  cases htl : tag.tail with
  | none => simp [htl]
  | some tl =>
    simp only [htl, _avoid_word_agglutination, List.getLast?_nil]
    rfl
/-- Witness for C10 at an element with a tag unknown to the converter,
carrying inline text and a child that are both discarded. -/
theorem c10_witness :
    (XMLtoJSON.init false AltStrategy.most_entities).convert_tag
      (Elem.mk "OMITIDO" [] (some ['h', 'i'])
        [Elem.mk "EM" [("ID", "9")] (some ['x']) [] none]
        (some ['t', 'l'])) =
      .ok (['t', 'l'], []) := by
  have h := c10_convert_tag_other_tags
    (XMLtoJSON.init false AltStrategy.most_entities)
    (Elem.mk "OMITIDO" [] (some ['h', 'i'])
      [Elem.mk "EM" [("ID", "9")] (some ['x']) [] none]
      (some ['t', 'l']))
    (by decide) (by decide)
  rw [h]
  rfl
lemma find?_eq_some_first {α : Type} (p : α → Bool) :
    ∀ (l : List α) (a : α), l.find? p = some a ↔
      ∃ (i : Nat) (h : i < l.length), l.get ⟨i, h⟩ = a ∧ p a = true ∧
        ∀ (j : Nat) (hj : j < l.length), j < i →
          p (l.get ⟨j, hj⟩) = false := by
  intro l
  induction l with
  | nil => intro a; simp
  | cons x xs ih =>
    intro a
    by_cases hx : p x
    · rw [List.find?_cons_of_pos _ hx]
      constructor
      · intro h
        refine ⟨0, by simp, by simpa using (Option.some_inj.mp h), ?_, ?_⟩
        · cases Option.some_inj.mp h; exact hx
        · intro j hj hji; omega
      · rintro ⟨i, h, hget, hpa, hfirst⟩
        cases i with
        | zero => simp at hget; rw [← hget]
        | succ k =>
          have := hfirst 0 (by simp) (by omega)
          simp [hx] at this
    · rw [List.find?_cons_of_neg _ (by simp [hx])]
      rw [ih a]
      constructor
      · rintro ⟨i, h, hget, hpa, hfirst⟩
        refine ⟨i + 1, by simpa using Nat.succ_lt_succ h, hget, hpa, ?_⟩
        intro j hj hji
        cases j with
        | zero => simpa using hx
        | succ k => exact hfirst k (by simpa using hj) (by omega)
      · rintro ⟨i, h, hget, hpa, hfirst⟩
        cases i with
        | zero =>
          exfalso
          apply hx
          have : x = a := by simpa using hget
          rw [this]; exact hpa
        | succ k =>
          refine ⟨k, by simpa using h, hget, hpa, ?_⟩
          intro j hj hji
          exact hfirst (j + 1) (by simpa using Nat.succ_lt_succ hj)
            (by omega)
lemma containsTrueIff (l : List Str) (a : Str) :
    l.contains a = true ↔ a ∈ l := by simp
lemma containsFalseIff (l : List Str) (a : Str) :
    l.contains a = false ↔ a ∉ l := by simp
/-- C6: `_get_label` returns the first pipe-delimited, whitespace-stripped
candidate of the CATEG attribute that belongs to the active scenario's
accepted set (`SELECTIVE_CATEGS` when selective, else `ALL_CATEGS`), and
`none` when no candidate qualifies or the attribute is absent. -/
theorem c6_get_label_first_match (selective : Bool) (strat : AltStrategy)
    (elem : Elem) :
    (attrGet "CATEG" elem = none →
      (XMLtoJSON.init selective strat).get_label elem = none) ∧
    (∀ categ : String, attrGet "CATEG" elem = some categ →
      ((∀ l : Str,
        (XMLtoJSON.init selective strat).get_label elem = some l ↔
          ∃ (i : Nat) (h : i < ((pipeSplit categ.toList).map stripStr).length),
            ((pipeSplit categ.toList).map stripStr).get ⟨i, h⟩ = l ∧
            l ∈ (if selective then SELECTIVE_CATEGS else ALL_CATEGS) ∧
            ∀ (j : Nat) (hj : j < ((pipeSplit categ.toList).map
                stripStr).length), j < i →
              ((pipeSplit categ.toList).map stripStr).get ⟨j, hj⟩ ∉
                (if selective then SELECTIVE_CATEGS else ALL_CATEGS)) ∧
      ((XMLtoJSON.init selective strat).get_label elem = none ↔
        ∀ l ∈ (pipeSplit categ.toList).map stripStr,
          l ∉ (if selective then SELECTIVE_CATEGS else ALL_CATEGS)))) := by
  have hacc : (XMLtoJSON.init selective strat).accepted_labels =
      if selective then SELECTIVE_CATEGS else ALL_CATEGS := rfl
  constructor
  · intro h
    simp [XMLtoJSON.get_label, h]
  · intro categ hc
    have hgl : (XMLtoJSON.init selective strat).get_label elem =
        ((pipeSplit categ.toList).map stripStr).find?
          (fun label =>
            (XMLtoJSON.init selective strat).accepted_labels.contains
              label) := by
      simp [XMLtoJSON.get_label, hc]
    constructor
    · intro l
      rw [hgl, find?_eq_some_first]
      constructor
      · rintro ⟨i, h, hget, hpa, hfirst⟩
        refine ⟨i, h, hget, ?_, ?_⟩
        · rw [← hacc]
          exact (containsTrueIff _ _).mp hpa
        · intro j hj hji
          have hnm := (containsFalseIff _ _).mp (hfirst j hj hji)
          rw [hacc] at hnm
          exact hnm
      · rintro ⟨i, h, hget, hmem, hfirst⟩
        refine ⟨i, h, hget, ?_, ?_⟩
        · refine (containsTrueIff _ _).mpr ?_
          rw [hacc]
          exact hmem
        · intro j hj hji
          refine (containsFalseIff _ _).mpr ?_
          rw [hacc]
          exact hfirst j hj hji
    · rw [hgl, List.find?_eq_none]
      constructor
      · intro h l hl hmem
        apply h l hl
        refine (containsTrueIff _ _).mpr ?_
        rw [hacc]
        exact hmem
      · intro h l hl hp
        have hm := (containsTrueIff _ _).mp hp
        rw [hacc] at hm
        exact h l hl hm
/-- Witness for C6 at the vague category attribute of the spec's example:
selective scenario skips the first candidate, total scenario keeps it. -/
theorem c6_witness :
    (XMLtoJSON.init true AltStrategy.most_entities).get_label
      (Elem.mk "EM" [("ID", "383"), ("CATEG", "ABSTRACCAO|PESSOA")]
        none [] none) = some "PESSOA".toList ∧
    (XMLtoJSON.init false AltStrategy.most_entities).get_label
      (Elem.mk "EM" [("ID", "383"), ("CATEG", "ABSTRACCAO|PESSOA")]
        none [] none) = some "ABSTRACCAO".toList := by
  constructor
  · exact ((c6_get_label_first_match true AltStrategy.most_entities
      (Elem.mk "EM" [("ID", "383"), ("CATEG", "ABSTRACCAO|PESSOA")]
        none [] none)).2 "ABSTRACCAO|PESSOA" rfl).1 ("PESSOA".toList)
      |>.mpr ⟨1, by decide, by decide, by decide, by decide⟩
  · exact ((c6_get_label_first_match false AltStrategy.most_entities
      (Elem.mk "EM" [("ID", "383"), ("CATEG", "ABSTRACCAO|PESSOA")]
        none [] none)).2 "ABSTRACCAO|PESSOA" rfl).1 ("ABSTRACCAO".toList)
      |>.mpr ⟨0, by decide, by decide, by decide, by decide⟩
lemma pipeSplit_ne_nil (s : Str) : pipeSplit s ≠ [] := by
  induction s with
  | nil => simp [pipeSplit]
  | cons c cs ih =>
    unfold pipeSplit
    by_cases hc : c = '|'
    · simp [hc]
    · simp only [hc, if_false, if_neg]
      cases h : pipeSplit cs <;> simp
lemma pipeSplit_length (s : Str) :
    (pipeSplit s).length = s.count '|' + 1 := by
  induction s with
  | nil => simp [pipeSplit]
  | cons c cs ih =>
    unfold pipeSplit
    by_cases hc : c = '|'
    · rw [if_pos hc, hc]
      simp [ih]
    · rw [if_neg hc]
      cases h : pipeSplit cs with
      | nil => exact absurd h (pipeSplit_ne_nil cs)
      | cons r rs =>
        rw [h] at ih
        simp only [List.length_cons] at ih
        simp [List.count_cons, hc, ih]
lemma pipeSplit_length_ge_two_iff (s : Str) :
    2 ≤ (pipeSplit s).length ↔ '|' ∈ s := by
  rw [pipeSplit_length]
  have hcp : 0 < s.count '|' ↔ '|' ∈ s := List.count_pos_iff
  rw [← hcp]
  omega
lemma pipeDivs_ne_nil_iff (s : Str) : pipeDivs s ≠ [] ↔ '|' ∈ s := by
  induction s with
  | nil => simp [pipeDivs]
  | cons c cs ih =>
    unfold pipeDivs
    by_cases hc : c = '|'
    · simp [hc]
    · simp only [hc, if_false, if_neg, List.nil_append, List.mem_cons]
      rw [← ih]
      constructor
      · intro h
        right
        intro hnil
        apply h
        simp [hnil]
      · intro h
        rcases h with hm | hm
        · exact absurd hm.symm hc
        · intro hnil
          apply hm
          cases hd : pipeDivs cs with
          | nil => rfl
          | cons a l => rw [hd] at hnil; simp at hnil
lemma split_go_ne_hv (len : Int) (divs : List Int) :
    ∀ (es : List Entity) (gix : Nat) (gstart gend : Int)
      (groups : List (List Entity)),
      split_go len divs es gix gstart gend groups ≠
        .error .hypothesisViolation := by
  intro es
  induction es with
  | nil => intro gix gstart gend groups; simp [split_go]
  | cons e rest ih =>
    intro gix gstart gend groups
    unfold split_go
    dsimp only
    repeat' split
    all_goals first | apply ih | simp
lemma split_alternatives_eq (alt_text : Str) (es : List Entity)
    (h2 : ¬ (pipeSplit alt_text).length < 2) (d0 : Int) (ds : List Int)
    (hd : (pipeDivs alt_text).map Int.ofNat = d0 :: ds) :
    split_alternatives alt_text es =
      (split_go (alt_text.length : Int) (d0 :: ds) es 0 0 d0
        (List.replicate (pipeSplit alt_text).length [])).map
        (fun gs => (pipeSplit alt_text, gs)) := by
  unfold split_alternatives
  simp only [if_neg h2, hd]
  cases hsg : split_go (alt_text.length : Int) (d0 :: ds) es 0 0 d0
      (List.replicate (pipeSplit alt_text).length []) with
  | error e => rfl
  | ok gs => rfl
/-- C8: `_split_alternatives` raises `HypothesisViolation` exactly when the
probe string contains no pipe character (fewer than two alternatives); when
the probe contains a pipe, the split step never raises that error.  And for
an ALT node whose flattened probe has no pipe, `_handle_alt` propagates the
fatal error, aborting the conversion. -/
theorem c8_split_alternatives_fatal :
    (∀ (alt_text : Str) (es : List Entity),
      split_alternatives alt_text es = .error .hypothesisViolation ↔
        '|' ∉ alt_text) ∧
    (∀ (cv : XMLtoJSON) (alt : Elem) (t : Str) (es : List Entity),
      cv.iterate_alt_tag alt = .ok (t, es) → '|' ∉ t →
      cv.handle_alt alt = .error .hypothesisViolation) := by
  have hmain : ∀ (alt_text : Str) (es : List Entity),
      split_alternatives alt_text es = .error .hypothesisViolation ↔
        '|' ∉ alt_text := by
    intro alt_text es
    by_cases hlen : (pipeSplit alt_text).length < 2
    · have hnp : ¬ ('|' ∈ alt_text) := by
        rw [← pipeSplit_length_ge_two_iff]
        omega
      unfold split_alternatives
      simp only [if_pos hlen]
      simp [hnp]
    · have hpipe : '|' ∈ alt_text := by
        rw [← pipeSplit_length_ge_two_iff]
        omega
      have hdne : (pipeDivs alt_text).map Int.ofNat ≠ [] := by
        simp only [ne_eq, List.map_eq_nil_iff]
        exact (pipeDivs_ne_nil_iff alt_text).mpr hpipe
      cases hd : (pipeDivs alt_text).map Int.ofNat with
      | nil => exact absurd hd hdne
      | cons d0 ds =>
        rw [split_alternatives_eq alt_text es hlen d0 ds hd]
        simp only [hpipe, not_true, iff_false]
        intro hcontra
        cases hsg : split_go (alt_text.length : Int) (d0 :: ds) es 0 0 d0
            (List.replicate (pipeSplit alt_text).length []) with
        | error e =>
          rw [hsg] at hcontra
          have heq : (Except.error e :
              Except Err (List Str × List (List Entity))) =
              .error .hypothesisViolation := hcontra
          injection heq with he
          rw [he] at hsg
          exact split_go_ne_hv _ _ _ _ _ _ _ hsg
        | ok gs =>
          rw [hsg] at hcontra
          exact Except.noConfusion hcontra
  refine ⟨hmain, ?_⟩
  intro cv alt t es hit hnp
  have hsp : split_alternatives t es = .error .hypothesisViolation :=
    (hmain t es).mpr hnp
  unfold XMLtoJSON.handle_alt
  rw [hit]
  show (split_alternatives t es).bind _ = _
  rw [hsp]
  rfl
/-- Witness for C8: a pipe-free probe string aborts the split with the
fatal error, and an ALT element flattening to a pipe-free probe makes
`_handle_alt` fail the same way. -/
theorem c8_witness :
    split_alternatives ['a', 'b'] [] = .error .hypothesisViolation ∧
    (XMLtoJSON.init false AltStrategy.most_entities).handle_alt
      (Elem.mk "ALT" [] (some ['a', 'b']) [] none) =
      .error .hypothesisViolation :=
  ⟨(c8_split_alternatives_fatal.1 ['a', 'b'] []).mpr (by decide),
   c8_split_alternatives_fatal.2
     (XMLtoJSON.init false AltStrategy.most_entities)
     (Elem.mk "ALT" [] (some ['a', 'b']) [] none)
     ['a', 'b'] [] rfl (by decide)⟩
lemma foldl_max_le (xs : List Nat) :
    ∀ (x : Nat), ∀ y ∈ x :: xs, y ≤ xs.foldl Nat.max x := by
  induction xs with
  | nil =>
    intro x y hy
    simp at hy
    simp [hy]
  | cons a l ih =>
    intro x y hy
    show y ≤ l.foldl Nat.max (Nat.max x a)
    rcases List.mem_cons.mp hy with h | hy2
    · calc y = x := h
        _ ≤ Nat.max x a := Nat.le_max_left x a
        _ ≤ l.foldl Nat.max (Nat.max x a) :=
          ih (Nat.max x a) (Nat.max x a) (List.mem_cons_self _ _)
    · rcases List.mem_cons.mp hy2 with h | hy3
      · calc y = a := h
          _ ≤ Nat.max x a := Nat.le_max_right x a
          _ ≤ l.foldl Nat.max (Nat.max x a) :=
            ih (Nat.max x a) (Nat.max x a) (List.mem_cons_self _ _)
      · exact ih (Nat.max x a) y (List.mem_cons_of_mem _ hy3)
lemma foldl_max_mem (xs : List Nat) :
    ∀ (x : Nat), xs.foldl Nat.max x ∈ x :: xs := by
  induction xs with
  | nil => intro x; simp [List.foldl]
  | cons a l ih =>
    intro x
    show l.foldl Nat.max (Nat.max x a) ∈ x :: a :: l
    have h := ih (Nat.max x a)
    rcases List.mem_cons.mp h with h1 | h2
    · have hor : Nat.max x a = a ∨ Nat.max x a = x :=
        (max_choice x a).symm
      rcases hor with hm | hm
      · rw [h1, hm]
        exact List.mem_cons_of_mem _ (List.mem_cons_self _ _)
      · rw [h1, hm]
        exact List.mem_cons_self _ _
    · exact List.mem_cons_of_mem _ (List.mem_cons_of_mem _ h2)
lemma pyMax_ok (l : List Nat) (hne : l ≠ []) :
    ∃ m, pyMax l = .ok m ∧ m ∈ l ∧ ∀ y ∈ l, y ≤ m := by
  cases l with
  | nil => exact absurd rfl hne
  | cons x xs =>
    exact ⟨xs.foldl Nat.max x, rfl, foldl_max_mem xs x, foldl_max_le xs x⟩
lemma pyIndex_ok (l : List Nat) (v : Nat) :
    v ∈ l → ∃ i, pyIndex l v = .ok i ∧ ∃ h : i < l.length,
      l.get ⟨i, h⟩ = v ∧ ∀ (j : Nat) (hj : j < l.length), j < i →
        l.get ⟨j, hj⟩ ≠ v := by
  induction l with
  | nil => intro h; simp at h
  | cons x xs ih =>
    intro hv
    by_cases hx : x = v
    · refine ⟨0, by simp [pyIndex, hx], by simp, hx, ?_⟩
      intro j hj hji
      omega
    · have hvxs : v ∈ xs := by
        rcases List.mem_cons.mp hv with h | h
        · exact absurd h.symm hx
        · exact h
      rcases ih hvxs with ⟨i, hok, h, hget, hfirst⟩
      refine ⟨i + 1, ?_, by simpa using Nat.succ_lt_succ h, hget, ?_⟩
      · simp [pyIndex, hx, hok, Except.map]
      · intro j hj hji
        cases j with
        | zero => exact hx
        | succ k =>
          exact hfirst k (by simpa using hj) (by omega)
lemma split_go_length (len : Int) (divs : List Int) :
    ∀ (es : List Entity) (gix : Nat) (gstart gend : Int)
      (groups : List (List Entity)) (gs : List (List Entity)),
      split_go len divs es gix gstart gend groups = .ok gs →
        gs.length = groups.length := by
  intro es
  induction es with
  | nil =>
    intro gix gstart gend groups gs h
    simp [split_go] at h
    rw [← h]
  | cons e rest ih =>
    intro gix gstart gend groups gs h
    unfold split_go at h
    dsimp only at h
    repeat' split at h
    all_goals first
      | exact Except.noConfusion h
      | rw [ih _ _ _ _ _ h, List.length_set]
lemma split_alternatives_ok (alt_text : Str) (es : List Entity)
    (texts : List Str) (groups : List (List Entity))
    (h : split_alternatives alt_text es = .ok (texts, groups)) :
    texts = pipeSplit alt_text ∧ groups.length = texts.length ∧
      2 ≤ texts.length := by
  by_cases hlen : (pipeSplit alt_text).length < 2
  · exfalso
    unfold split_alternatives at h
    rw [if_pos hlen] at h
    exact Except.noConfusion h
  · cases hd : (pipeDivs alt_text).map Int.ofNat with
    | nil =>
      exfalso
      unfold split_alternatives at h
      rw [if_neg hlen] at h
      simp only [hd] at h
      exact Except.noConfusion h
    | cons d0 ds =>
      rw [split_alternatives_eq alt_text es hlen d0 ds hd] at h
      cases hsg : split_go (alt_text.length : Int) (d0 :: ds) es 0 0 d0
          (List.replicate (pipeSplit alt_text).length []) with
      | error e =>
        rw [hsg] at h
        exact Except.noConfusion h
      | ok gs =>
        rw [hsg] at h
        have heq : (Except.ok (pipeSplit alt_text, gs) :
            Except Err (List Str × List (List Entity))) =
            .ok (texts, groups) := h
        have hp := Except.ok.inj heq
        cases hp
        refine ⟨rfl, ?_, by omega⟩
        rw [split_go_length _ _ _ _ _ _ _ _ hsg, List.length_replicate]
lemma handle_alt_spec (cv : XMLtoJSON) (alt : Elem) (t : Str)
    (es : List Entity) (texts : List Str) (groups : List (List Entity))
    (hit : cv.iterate_alt_tag alt = .ok (t, es))
    (hsp : split_alternatives t es = .ok (texts, groups)) :
    ∃ (i : Nat) (h : i < groups.length),
      cv.handle_alt alt = .ok (texts.getD i [], groups.getD i []) ∧
      (∀ (j : Nat) (hj : j < groups.length),
        groupScore cv.alt_strategy (groups.get ⟨j, hj⟩) ≤
          groupScore cv.alt_strategy (groups.get ⟨i, h⟩)) ∧
      (∀ (j : Nat) (hj : j < groups.length), j < i →
        groupScore cv.alt_strategy (groups.get ⟨j, hj⟩) <
          groupScore cv.alt_strategy (groups.get ⟨i, h⟩)) := by
  obtain ⟨htx, hlen, h2⟩ := split_alternatives_ok t es texts groups hsp
  have hgne : groups.map (groupScore cv.alt_strategy) ≠ [] := by
    intro hnil
    rw [List.map_eq_nil_iff] at hnil
    rw [hnil] at hlen
    simp at hlen
    omega
  obtain ⟨m, hmax, hmem, hle⟩ :=
    pyMax_ok (groups.map (groupScore cv.alt_strategy)) hgne
  obtain ⟨i, hidx, hi, hget, hfirst⟩ :=
    pyIndex_ok (groups.map (groupScore cv.alt_strategy)) m hmem
  have higr : i < groups.length := by
    rw [List.length_map] at hi
    exact hi
  refine ⟨i, higr, ?_, ?_, ?_⟩
  · simp only [XMLtoJSON.handle_alt, bind, Except.bind, hit, hsp, hmax,
      hidx]
  · intro j hj
    have hgj : groupScore cv.alt_strategy (groups.get ⟨j, hj⟩) ∈
        groups.map (groupScore cv.alt_strategy) := by
      apply List.mem_map_of_mem
      exact List.get_mem groups _ _
    have h1 := hle _ hgj
    have h2m : (groups.map (groupScore cv.alt_strategy)).get ⟨i, hi⟩ =
        groupScore cv.alt_strategy (groups.get ⟨i, higr⟩) := by
      simp [List.get_map]
    rw [← h2m, hget]
    exact h1
  · intro j hj hji
    have hjm : j < (groups.map (groupScore cv.alt_strategy)).length := by
      rw [List.length_map]
      exact hj
    have hne := hfirst j hjm hji
    have hgj : groupScore cv.alt_strategy (groups.get ⟨j, hj⟩) ∈
        groups.map (groupScore cv.alt_strategy) := by
      apply List.mem_map_of_mem
      exact List.get_mem groups _ _
    have h1 := hle _ hgj
    have h2m : (groups.map (groupScore cv.alt_strategy)).get ⟨i, hi⟩ =
        groupScore cv.alt_strategy (groups.get ⟨i, higr⟩) := by
      simp [List.get_map]
    have h3m : (groups.map (groupScore cv.alt_strategy)).get ⟨j, hjm⟩ =
        groupScore cv.alt_strategy (groups.get ⟨j, hj⟩) := by
      simp [List.get_map]
    rw [← h2m, hget]
    rw [← h3m] at h1 ⊢
    rcases Nat.lt_or_ge ((groups.map
        (groupScore cv.alt_strategy)).get ⟨j, hjm⟩) m with hlt | hge
    · exact hlt
    · exfalso
      apply hne
      rw [hget] at *
      omega
lemma bindOkM {α β : Type} (a : α) (f : α → Except Err β) :
    (Except.ok a : Except Err α) >>= f = f a := rfl
lemma bindErrM {α β : Type} (e : Err) (f : α → Except Err β) :
    (Except.error e : Except Err α) >>= f = Except.error e := rfl
lemma bindOkE {α β : Type} (a : α) (f : α → Except Err β) :
    Except.bind (Except.ok a) f = f a := rfl
lemma bindErrE {α β : Type} (e : Err) (f : α → Except Err β) :
    Except.bind (Except.error e) f = Except.error e := rfl
lemma iterate_alt_go_cons_em (cv : XMLtoJSON) (tag : Elem)
    (rest : List Elem) (text : Str) (entities : List Entity)
    (htag : tag.tag = "EM") :
    cv.iterate_alt_go (tag :: rest) text entities =
      (cv.convert_entity tag).bind (fun entity =>
        (append_text_safe text entity.text).bind (fun text1 =>
          (match tag.tail with
           | some tl =>
             if tl ≠ [] then append_text_safe text1 tl else pure text1
           | none => pure text1).bind (fun text2 =>
            cv.iterate_alt_go rest text2
              (if entity.label.isSome then
                entities ++ [shift_offset entity (text.length : Int)]
              else entities)))) := by
  rw [XMLtoJSON.iterate_alt_go, if_pos htag]
  cases hce : cv.convert_entity tag with
  | error e => rfl
  | ok ent =>
    simp only [bindOkM, bindOkE]
    cases hap : append_text_safe text ent.text with
    | error e2 => rfl
    | ok text1 =>
      simp only [bindOkM, bindOkE]
      cases htl : tag.tail with
      | none => rfl
      | some tl =>
        dsimp only
        by_cases hni : tl ≠ []
        · simp only [if_pos hni]
          cases hap2 : append_text_safe text1 tl with
          | error e3 => rfl
          | ok text2 => rfl
        · simp only [if_neg hni]
          rfl
lemma iterate_alt_go_labels (cv : XMLtoJSON) :
    ∀ (children : List Elem) (text : Str) (entities : List Entity)
      (t : Str) (es : List Entity),
      (∀ e ∈ entities, e.label.isSome = true) →
      cv.iterate_alt_go children text entities = .ok (t, es) →
      ∀ e ∈ es, e.label.isSome = true := by
  intro children
  induction children with
  | nil =>
    intro text entities t es hents h
    simp [XMLtoJSON.iterate_alt_go] at h
    rw [← h.2]
    exact hents
  | cons tag rest ih =>
    intro text entities t es hents h
    by_cases htag : tag.tag = "EM"
    · rw [iterate_alt_go_cons_em cv tag rest text entities htag] at h
      cases hce : cv.convert_entity tag with
      | error e =>
        rw [hce] at h
        exact absurd h (by simp [Except.bind])
      | ok ent =>
        rw [hce] at h
        dsimp only [Except.bind] at h
        have hents2 : ∀ e ∈ (if ent.label.isSome then
            entities ++ [shift_offset ent (text.length : Int)]
          else entities), e.label.isSome = true := by
          intro e he
          by_cases hl : ent.label.isSome
          · rw [if_pos hl] at he
            rcases List.mem_append.mp he with hm | hm
            · exact hents e hm
            · simp at hm
              rw [hm]
              exact hl
          · rw [if_neg hl] at he
            exact hents e he
        cases hap : append_text_safe text ent.text with
        | error e2 =>
          rw [hap] at h
          exact absurd h (by simp [Except.bind])
        | ok text1 =>
          rw [hap] at h
          dsimp only [Except.bind] at h
          cases htl : tag.tail with
          | none =>
            rw [htl] at h
            dsimp only [pure, Except.pure, Except.bind] at h
            exact ih _ _ _ _ hents2 h
          | some tl =>
            rw [htl] at h
            dsimp only at h
            by_cases hni : tl ≠ []
            · rw [if_pos hni] at h
              cases hap2 : append_text_safe text1 tl with
              | error e3 =>
                rw [hap2] at h
                exact absurd h (by simp [Except.bind])
              | ok text2 =>
                rw [hap2] at h
                dsimp only [Except.bind] at h
                exact ih _ _ _ _ hents2 h
            · rw [if_neg hni] at h
              dsimp only [pure, Except.pure, Except.bind] at h
              exact ih _ _ _ _ hents2 h
    · unfold XMLtoJSON.iterate_alt_go at h
      rw [if_neg htag] at h
      exact ih _ _ _ _ hents h
lemma iterate_alt_tag_labels (cv : XMLtoJSON) (alt : Elem) (t : Str)
    (es : List Entity) (h : cv.iterate_alt_tag alt = .ok (t, es)) :
    ∀ e ∈ es, e.label.isSome = true := by
  unfold XMLtoJSON.iterate_alt_tag at h
  exact iterate_alt_go_labels cv alt.children (alt.text.getD []) [] t es
    (by simp) h
/-- C4: given the flattened probe and the split alternatives of an ALT node,
`_handle_alt` returns the text and entity group of the first index whose
group score is maximal, where the score of a group under `most_entities` is
its number of entities (all of which survived label resolution) and under
`entity_coverage` is the sum of its entities' text lengths. -/
theorem c4_handle_alt_strategy (cv : XMLtoJSON) (alt : Elem) (t : Str)
    (es : List Entity) (texts : List Str) (groups : List (List Entity))
    (hit : cv.iterate_alt_tag alt = .ok (t, es))
    (hsp : split_alternatives t es = .ok (texts, groups)) :
    (∀ e ∈ es, e.label.isSome = true) ∧
    ∃ (i : Nat) (h : i < groups.length),
      cv.handle_alt alt = .ok (texts.getD i [], groups.getD i []) ∧
      (∀ (j : Nat) (hj : j < groups.length),
        groupScore cv.alt_strategy (groups.get ⟨j, hj⟩) ≤
          groupScore cv.alt_strategy (groups.get ⟨i, h⟩)) ∧
      (∀ (j : Nat) (hj : j < groups.length), j < i →
        groupScore cv.alt_strategy (groups.get ⟨j, hj⟩) <
          groupScore cv.alt_strategy (groups.get ⟨i, h⟩)) :=
  ⟨iterate_alt_tag_labels cv alt t es hit,
   handle_alt_spec cv alt t es texts groups hit hsp⟩
/-- Witness for C4 on the ALT element `altW`. -/
theorem c4_witness :
    (∀ e ∈ [entW], e.label.isSome = true) ∧
    ∃ (i : Nat) (h : i < ([[], [entW0]] : List (List Entity)).length),
      cv_total_me.handle_alt altW =
        .ok (([['a'], ['b', 'c']] : List Str).getD i [],
             ([[], [entW0]] : List (List Entity)).getD i []) ∧
      (∀ (j : Nat) (hj : j < ([[], [entW0]] :
          List (List Entity)).length),
        groupScore cv_total_me.alt_strategy
            (([[], [entW0]] : List (List Entity)).get ⟨j, hj⟩) ≤
          groupScore cv_total_me.alt_strategy
            (([[], [entW0]] : List (List Entity)).get ⟨i, h⟩)) ∧
      (∀ (j : Nat) (hj : j < ([[], [entW0]] :
          List (List Entity)).length), j < i →
        groupScore cv_total_me.alt_strategy
            (([[], [entW0]] : List (List Entity)).get ⟨j, hj⟩) <
          groupScore cv_total_me.alt_strategy
            (([[], [entW0]] : List (List Entity)).get ⟨i, h⟩)) :=
  c4_handle_alt_strategy cv_total_me altW ['a', '|', 'b', 'c'] [entW]
    [['a'], ['b', 'c']] [[], [entW0]] rfl rfl
lemma iterate_alt_go_strategy (L : List Str) (s1 s2 : AltStrategy) :
    ∀ (children : List Elem) (text : Str) (entities : List Entity),
      (XMLtoJSON.mk L s1).iterate_alt_go children text entities =
        (XMLtoJSON.mk L s2).iterate_alt_go children text entities := by
  intro children
  induction children with
  | nil => intro text entities; rfl
  | cons tag rest ih =>
    intro text entities
    by_cases htag : tag.tag = "EM"
    · rw [iterate_alt_go_cons_em _ tag rest text entities htag,
        iterate_alt_go_cons_em _ tag rest text entities htag]
      have hce : (XMLtoJSON.mk L s2).convert_entity tag =
          (XMLtoJSON.mk L s1).convert_entity tag := rfl
      rw [hce]
      cases hcev : (XMLtoJSON.mk L s1).convert_entity tag with
      | error e => rfl
      | ok ent =>
        simp only [bindOkE]
        cases hap : append_text_safe text ent.text with
        | error e2 => rfl
        | ok text1 =>
          simp only [bindOkE]
          cases htl : tag.tail with
          | none =>
            dsimp only
            simp only [pure, Except.pure, bindOkE]
            exact ih _ _
          | some tl =>
            dsimp only
            by_cases hni : tl ≠ []
            · simp only [if_pos hni]
              cases hap2 : append_text_safe text1 tl with
              | error e3 => rfl
              | ok text2 =>
                simp only [bindOkE]
                exact ih _ _
            · simp only [if_neg hni]
              simp only [pure, Except.pure, bindOkE]
              exact ih _ _
    · unfold XMLtoJSON.iterate_alt_go
      rw [if_neg htag, if_neg htag]
      exact ih _ _
lemma iterate_alt_tag_strategy (L : List Str) (s1 s2 : AltStrategy)
    (alt : Elem) :
    (XMLtoJSON.mk L s1).iterate_alt_tag alt =
      (XMLtoJSON.mk L s2).iterate_alt_tag alt := by
  unfold XMLtoJSON.iterate_alt_tag
  exact iterate_alt_go_strategy L s1 s2 alt.children (alt.text.getD []) []
lemma choose_unique (cv : XMLtoJSON) (alt : Elem) (t : Str)
    (es : List Entity) (texts : List Str) (groups : List (List Entity))
    (i : Nat) (hi : i < groups.length)
    (hit : cv.iterate_alt_tag alt = .ok (t, es))
    (hsp : split_alternatives t es = .ok (texts, groups))
    (hothers : ∀ (j : Nat) (hj : j < groups.length), j ≠ i →
      groups.get ⟨j, hj⟩ = [])
    (hpos : 0 < groupScore cv.alt_strategy (groups.get ⟨i, hi⟩)) :
    cv.handle_alt alt = .ok (texts.getD i [], groups.getD i []) := by
  obtain ⟨k, hk, hret, hmax, _⟩ :=
    handle_alt_spec cv alt t es texts groups hit hsp
  by_cases hki : k = i
  · subst hki
    exact hret
  · exfalso
    have h0 : groups.get ⟨k, hk⟩ = [] := hothers k hk hki
    have hge := hmax i hi
    rw [h0] at hge
    have hz : groupScore cv.alt_strategy ([] : List Entity) = 0 := by
      cases cv.alt_strategy <;> rfl
    rw [hz] at hge
    omega
/-- C5 (amended): for every ALT node in which exactly one segment contains
accepted entities and those entities' total text length is positive,
`_handle_alt` selects that segment's text and entities under both the
`most_entities` and the `entity_coverage` strategy. -/
theorem c5_amended_unique_segment (L : List Str) (alt : Elem) (t : Str)
    (es : List Entity) (texts : List Str) (groups : List (List Entity))
    (i : Nat) (hi : i < groups.length)
    (hit : (XMLtoJSON.mk L AltStrategy.most_entities).iterate_alt_tag alt =
      .ok (t, es))
    (hsp : split_alternatives t es = .ok (texts, groups))
    (hne : groups.get ⟨i, hi⟩ ≠ [])
    (hothers : ∀ (j : Nat) (hj : j < groups.length), j ≠ i →
      groups.get ⟨j, hj⟩ = [])
    (hcov : 0 < ((groups.get ⟨i, hi⟩).map
      (fun e => e.text.length)).sum) :
    (XMLtoJSON.mk L AltStrategy.most_entities).handle_alt alt =
      .ok (texts.getD i [], groups.getD i []) ∧
    (XMLtoJSON.mk L AltStrategy.entity_coverage).handle_alt alt =
      .ok (texts.getD i [], groups.getD i []) := by
  have hit2 : (XMLtoJSON.mk L AltStrategy.entity_coverage).iterate_alt_tag
      alt = .ok (t, es) := by
    rw [iterate_alt_tag_strategy L AltStrategy.entity_coverage
      AltStrategy.most_entities alt]
    exact hit
  constructor
  · apply choose_unique _ alt t es texts groups i hi hit hsp hothers
    show 0 < (groups.get ⟨i, hi⟩).length
    exact List.length_pos.mpr hne
  · apply choose_unique _ alt t es texts groups i hi hit2 hsp hothers
    exact hcov
/-- Counterexample to C5 as stated: in `altC5` only segment 1 contains an
accepted entity, yet the `entity_coverage` strategy selects segment 0 (its
coverage ties at zero and the tie breaks to the lowest index), so the two
strategies disagree. -/
theorem c5_counterexample :
    cv_total_ec.iterate_alt_tag altC5 = .ok (['x', '|'], [entC5]) ∧
    split_alternatives ['x', '|'] [entC5] =
      .ok ([['x'], []], [[], [entC5r]]) ∧
    cv_total_ec.handle_alt altC5 = .ok (['x'], []) ∧
    cv_total_me.handle_alt altC5 = .ok ([], [entC5r]) :=
  ⟨rfl, rfl, rfl, rfl⟩
/-- Witness for C5 (amended) on the ALT element `altW`, whose segment 1
holds the only accepted entity, with positive coverage. -/
theorem c5_witness :
    (XMLtoJSON.mk ALL_CATEGS AltStrategy.most_entities).handle_alt altW =
      .ok (([['a'], ['b', 'c']] : List Str).getD 1 [],
           ([[], [entW0]] : List (List Entity)).getD 1 []) ∧
    (XMLtoJSON.mk ALL_CATEGS AltStrategy.entity_coverage).handle_alt altW =
      .ok (([['a'], ['b', 'c']] : List Str).getD 1 [],
           ([[], [entW0]] : List (List Entity)).getD 1 []) :=
  c5_amended_unique_segment ALL_CATEGS altW ['a', '|', 'b', 'c'] [entW]
    [['a'], ['b', 'c']] [[], [entW0]] 1 (by decide) rfl rfl
    (by decide)
    (by
      intro j hj hji
      match j with
      | 0 => rfl
      | 1 => exact absurd rfl hji
      | n + 2 =>
        exact absurd hj
          (by simp only [List.length_cons, List.length_nil]; omega))
    (by decide)
/-- C1: the offset-slice invariant fails on an accepted document.
`convert_document` accepts `docC1` and returns a document whose only
entity has text `a|b` and offsets 0..3 against a document text of length 1:
the slice differs from the entity text and the end offset exceeds the text
length, so `documentAligned` is false. -/
theorem c1_offset_invariant_violated :
    cv_total_me.convert_document docC1 = .ok docC1_result ∧
    documentAligned docC1_result = false ∧
    pySlice docC1_result.doc_text 0 3 ≠
      (docC1_result.entities.map Entity.text).getD 0 [] ∧
    ¬ ((3 : Int) ≤ (docC1_result.doc_text.length : Int)) :=
  ⟨rfl, rfl, by decide, by decide⟩
/-- C3: the flattened probe of `altC3` is `x|y z` (with the inserted
agglutination-guard space), but the collected entity's offsets 3..4 slice
out the inserted space, not the entity text `z`: the offsets are relative
to the probe before the space insertion, so the invariant
`probe[start:end] = text` fails. -/
theorem c3_iterate_alt_tag_offsets_misaligned :
    cv_total_me.iterate_alt_tag altC3 =
      .ok (['x', '|', 'y', ' ', 'z'], [entC3]) ∧
    pySlice ['x', '|', 'y', ' ', 'z'] entC3.start_offset
      entC3.end_offset ≠ entC3.text :=
  ⟨rfl, by decide⟩
/-- Counterexample to C2 as stated: the probe `a|b|c` derived from `altC2`
has delimiters at positions 1 and 3; the second entity's start offset 4
lies in segment 2 (its containing-segment index is 2), yet the code's
single-step group advance assigns it to group 1 — group 2 stays empty and
the entity is rebased by segment 1's start. -/
theorem c2_counterexample :
    cv_total_me.iterate_alt_tag altC2 =
      .ok (['a', '|', 'b', '|', 'c'], [entC2a, entC2b]) ∧
    (pipeDivs ['a', '|', 'b', '|', 'c']).map Int.ofNat = [1, 3] ∧
    segIdx [(1 : Int), 3] entC2b.start_offset = 2 ∧
    split_alternatives ['a', '|', 'b', '|', 'c'] [entC2a, entC2b] =
      .ok ([['a'], ['b'], ['c']], [[entC2a], [entC2b1], []]) ∧
    ([[entC2a], [entC2b1], []] : List (List Entity)).getD 2 [] = [] :=
  ⟨rfl, rfl, by decide, rfl, rfl⟩
lemma segIdx_le_length (divs : List Int) (s : Int) :
    segIdx divs s ≤ divs.length :=
  List.length_filter_le _ _
lemma segIdx_ge_of_get_lt (divs : List Int)
    (hsort : divs.Pairwise (· < ·)) :
    ∀ (i : Nat) (h : i < divs.length) (s : Int),
      divs.get ⟨i, h⟩ < s → i + 1 ≤ segIdx divs s := by
  induction divs with
  | nil => intro i h; simp at h
  | cons d ds ih =>
    intro i h s hlt
    have hsort2 := (List.pairwise_cons.mp hsort).2
    have hhead := (List.pairwise_cons.mp hsort).1
    cases i with
    | zero =>
      have hd : d < s := hlt
      unfold segIdx
      rw [List.filter_cons, if_pos (by simpa using hd)]
      simp
    | succ k =>
      have hk : k < ds.length := by simpa using h
      have hdk : ds.get ⟨k, hk⟩ < s := hlt
      have hd : d < s :=
        lt_trans (hhead _ (List.get_mem ds k hk)) hdk
      unfold segIdx
      rw [List.filter_cons, if_pos (by simpa using hd)]
      have := ih hsort2 k hk s hdk
      unfold segIdx at this
      simp only [List.length_cons]
      omega
lemma segIdx_le_of_le_get (divs : List Int)
    (hsort : divs.Pairwise (· < ·)) :
    ∀ (i : Nat) (h : i < divs.length) (s : Int),
      s ≤ divs.get ⟨i, h⟩ → segIdx divs s ≤ i := by
  induction divs with
  | nil => intro i h; simp at h
  | cons d ds ih =>
    intro i h s hge
    have hsort2 := (List.pairwise_cons.mp hsort).2
    have hhead := (List.pairwise_cons.mp hsort).1
    cases i with
    | zero =>
      have hd : s ≤ d := hge
      unfold segIdx
      have hnil : (d :: ds).filter (fun x => decide (x < s)) = [] := by
        rw [List.filter_eq_nil]
        intro a ha
        rcases List.mem_cons.mp ha with h1 | h2
        · simp [h1]
          omega
        · have := hhead a h2
          simp
          omega
      rw [hnil]
      simp
    | succ k =>
      have hk : k < ds.length := by simpa using h
      have hdk : s ≤ ds.get ⟨k, hk⟩ := hge
      have hrec := ih hsort2 k hk s hdk
      unfold segIdx at hrec ⊢
      rw [List.filter_cons]
      by_cases hd : d < s
      · rw [if_pos (by simpa using hd)]
        simp only [List.length_cons]
        omega
      · rw [if_neg (by simpa using hd)]
        omega
lemma pipeDivs_sorted (s : Str) : (pipeDivs s).Pairwise (· < ·) := by
  induction s with
  | nil => simp [pipeDivs]
  | cons c cs ih =>
    unfold pipeDivs
    have hmap : ((pipeDivs cs).map (· + 1)).Pairwise (· < ·) := by
      rw [List.pairwise_map]
      exact ih.imp (by omega)
    by_cases hc : c = '|'
    · rw [if_pos hc]
      simp only [List.cons_append, List.nil_append]
      rw [List.pairwise_cons]
      refine ⟨?_, hmap⟩
      intro a ha
      rcases List.mem_map.mp ha with ⟨b, _, hb⟩
      omega
    · rw [if_neg hc]
      simpa using hmap
lemma pipeDivs_bound (s : Str) : ∀ d ∈ pipeDivs s, d < s.length := by
  induction s with
  | nil => simp [pipeDivs]
  | cons c cs ih =>
    intro d hd
    unfold pipeDivs at hd
    rcases List.mem_append.mp hd with h1 | h2
    · by_cases hc : c = '|'
      · rw [if_pos hc] at h1
        simp at h1
        simp [h1]
      · rw [if_neg hc] at h1
        simp at h1
    · rcases List.mem_map.mp h2 with ⟨b, hb, hbd⟩
      have := ih b hb
      simp only [List.length_cons]
      omega
lemma pipeDivs_length (s : Str) :
    (pipeDivs s).length + 1 = (pipeSplit s).length := by
  induction s with
  | nil => simp [pipeDivs, pipeSplit]
  | cons c cs ih =>
    unfold pipeDivs pipeSplit
    by_cases hc : c = '|'
    · rw [if_pos hc, if_pos hc]
      simp only [List.cons_append, List.nil_append, List.length_cons,
        List.length_map]
      omega
    · rw [if_neg hc, if_neg hc]
      cases h : pipeSplit cs with
      | nil => exact absurd h (pipeSplit_ne_nil cs)
      | cons r rs =>
        rw [h] at ih
        simp only [List.nil_append, List.length_map, List.length_cons]
        simpa using ih
lemma pipeDivs_get (s : Str) :
    ∀ (i : Nat) (h : i < (pipeDivs s).length),
      (pipeDivs s).get ⟨i, h⟩ =
        (((pipeSplit s).take (i + 1)).map List.length).sum + i := by
  induction s with
  | nil => intro i h; simp [pipeDivs] at h
  | cons c cs ih =>
    intro i h
    by_cases hc : c = '|'
    · have hdv : pipeDivs (c :: cs) = 0 :: (pipeDivs cs).map (· + 1) := by
        rw [pipeDivs, if_pos hc]
        rfl
      have hsp : pipeSplit (c :: cs) = [] :: pipeSplit cs := by
        rw [pipeSplit, if_pos hc]
      cases i with
      | zero =>
        simp [hdv, hsp]
      | succ k =>
        have hk : k < ((pipeDivs cs).map (· + 1)).length := by
          rw [hdv] at h
          simpa using h
        have hk2 : k < (pipeDivs cs).length := by simpa using hk
        have hget : (pipeDivs (c :: cs)).get ⟨k + 1, h⟩ =
            (pipeDivs cs).get ⟨k, hk2⟩ + 1 := by
          simp [hdv]
        rw [hget, ih k hk2, hsp]
        simp only [List.take_succ_cons, List.map_cons, List.sum_cons,
          List.length_nil]
        omega
    · have hr := pipeSplit_ne_nil cs
      cases hscs : pipeSplit cs with
      | nil => exact absurd hscs hr
      | cons r rs =>
        have hdv : pipeDivs (c :: cs) = (pipeDivs cs).map (· + 1) := by
          rw [pipeDivs, if_neg hc]
          rfl
        have hsp : pipeSplit (c :: cs) = (c :: r) :: rs := by
          rw [pipeSplit, if_neg hc, hscs]
        have hk2 : i < (pipeDivs cs).length := by
          rw [hdv] at h
          simpa using h
        have hget : (pipeDivs (c :: cs)).get ⟨i, h⟩ =
            (pipeDivs cs).get ⟨i, hk2⟩ + 1 := by
          simp [hdv]
        rw [hget, ih i hk2, hscs, hsp]
        cases i with
        | zero => simp
        | succ k =>
          simp only [List.take_succ_cons, List.map_cons, List.sum_cons,
            List.length_cons]
          omega
lemma split_go_cons (len : Int) (divs : List Int) (e : Entity)
    (rest : List Entity) (gix : Nat) (gstart gend : Int)
    (groups : List (List Entity)) :
    split_go len divs (e :: rest) gix gstart gend groups =
      (let st := if e.start_offset > gend then
          (gix + 1, gend + 1,
            if gix + 1 < divs.length then divs.getD (gix + 1) 0
            else if gix + 1 = divs.length then len else gend)
        else (gix, gstart, gend)
       if h : st.1 < groups.length then
         split_go len divs rest st.1 st.2.1 st.2.2
           (groups.set st.1 (groups.get ⟨st.1, h⟩ ++
             [shift_offset e (-st.2.1)]))
       else .error .indexError) := by
  rw [split_go]
lemma split_go_correct (len : Int) (divs : List Int)
    (hsort : divs.Pairwise (· < ·)) :
    ∀ (es : List Entity) (gix : Nat) (groups : List (List Entity)),
      gix ≤ divs.length →
      groups.length = divs.length + 1 →
      (∀ e ∈ es, e.start_offset ≤ len) →
      noSkip divs gix es = true →
      ∃ gs, split_go len divs es gix (segStart divs gix)
          (divs.getD gix len) groups = .ok gs ∧
        gs.length = groups.length ∧
        ∀ (i : Nat), i < groups.length →
          gs.getD i [] = groups.getD i [] ++
            (es.filter (fun e => segIdx divs e.start_offset = i)).map
              (fun e => shift_offset e (-(segStart divs i))) := by
  intro es
  induction es with
  | nil =>
    intro gix groups hgix hglen hval hskip
    refine ⟨groups, by simp [split_go], rfl, ?_⟩
    intro i hi
    simp
  | cons e rest ih =>
    intro gix groups hgix hglen hval hskip
    unfold noSkip at hskip
    rw [Bool.and_eq_true, Bool.and_eq_true] at hskip
    obtain ⟨⟨hge1, hge2⟩, hrest⟩ := hskip
    rw [decide_eq_true_eq] at hge1 hge2
    have hcase : segIdx divs e.start_offset = gix ∨
        segIdx divs e.start_offset = gix + 1 := by omega
    have hvalrest : ∀ x ∈ rest, x.start_offset ≤ len :=
      fun x hx => hval x (List.mem_cons_of_mem _ hx)
    rcases hcase with hcase | hcase
    · -- the entity stays in the current group
      have hnot : ¬ (e.start_offset > divs.getD gix len) := by
        by_cases hgl : gix < divs.length
        · rw [List.getD_eq_get _ _ hgl]
          intro hgt
          have := segIdx_ge_of_get_lt divs hsort gix hgl
            e.start_offset hgt
          omega
        · rw [List.getD_eq_default _ _ (by omega)]
          have := hval e (List.mem_cons_self _ _)
          omega
      have hlt : gix < groups.length := by omega
      rw [split_go_cons]
      simp only [if_neg hnot]
      rw [dif_pos hlt]
      rw [hcase] at hrest
      obtain ⟨gs, hok, hlen2, hdesc⟩ := ih gix
        (groups.set gix (groups.get ⟨gix, hlt⟩ ++
          [shift_offset e (-(segStart divs gix))]))
        hgix (by rw [List.length_set]; exact hglen) hvalrest hrest
      refine ⟨gs, hok, by rw [hlen2, List.length_set], ?_⟩
      intro k hk
      have hk2 : k < (groups.set gix (groups.get ⟨gix, hlt⟩ ++
          [shift_offset e (-(segStart divs gix))])).length := by
        rw [List.length_set]
        exact hk
      rw [hdesc k hk2, List.filter_cons]
      by_cases hkg : k = gix
      · subst hkg
        rw [if_pos (by simp [hcase])]
        have hset : (groups.set k (groups.get ⟨k, hlt⟩ ++
            [shift_offset e (-(segStart divs k))])).getD k [] =
            groups.get ⟨k, hlt⟩ ++
              [shift_offset e (-(segStart divs k))] := by
          simp [List.getD, List.getElem?_set_self, hlt]
        rw [hset, List.map_cons, ← List.getD_eq_get groups [] hlt,
          List.append_assoc]
        rfl
      · rw [if_neg (by
          simp only [decide_eq_true_eq, hcase]
          exact fun hh => hkg hh.symm)]
        have hset : (groups.set gix (groups.get ⟨gix, hlt⟩ ++
            [shift_offset e (-(segStart divs gix))])).getD k [] =
            groups.getD k [] := by
          simp [List.getD, List.getElem?_set_ne (Ne.symm hkg)]
        rw [hset]
    · -- the entity advances to the next group
      have hgl : gix < divs.length := by
        have := segIdx_le_length divs e.start_offset
        omega
      have hgt : e.start_offset > divs.getD gix len := by
        rw [List.getD_eq_get _ _ hgl]
        by_contra hle
        push_neg at hle
        have := segIdx_le_of_le_get divs hsort gix hgl
          e.start_offset hle
        omega
      have hstart : divs.getD gix len + 1 = segStart divs (gix + 1) := by
        have h1 : segStart divs (gix + 1) = divs.getD gix 0 + 1 := rfl
        rw [h1, List.getD_eq_get _ _ hgl, List.getD_eq_get _ _ hgl]
      have hgend :
          (if gix + 1 < divs.length then divs.getD (gix + 1) 0
           else if gix + 1 = divs.length then len
           else divs.getD gix len) = divs.getD (gix + 1) len := by
        by_cases hl2 : gix + 1 < divs.length
        · rw [if_pos hl2, List.getD_eq_get _ _ hl2,
            List.getD_eq_get _ _ hl2]
        · have heq : gix + 1 = divs.length := by omega
          rw [if_neg hl2, if_pos heq,
            List.getD_eq_default _ _ (by omega)]
      have hlt2 : gix + 1 < groups.length := by omega
      rw [split_go_cons]
      simp only [if_pos hgt]
      dsimp only
      rw [hgend, hstart]
      rw [dif_pos hlt2]
      rw [hcase] at hrest
      obtain ⟨gs, hok, hlen2, hdesc⟩ := ih (gix + 1)
        (groups.set (gix + 1) (groups.get ⟨gix + 1, hlt2⟩ ++
          [shift_offset e (-(segStart divs (gix + 1)))]))
        (by omega) (by rw [List.length_set]; exact hglen) hvalrest hrest
      refine ⟨gs, hok, by rw [hlen2, List.length_set], ?_⟩
      intro k hk
      have hk2 : k < (groups.set (gix + 1)
          (groups.get ⟨gix + 1, hlt2⟩ ++
            [shift_offset e (-(segStart divs (gix + 1)))])).length := by
        rw [List.length_set]
        exact hk
      rw [hdesc k hk2, List.filter_cons]
      by_cases hkg : k = gix + 1
      · subst hkg
        rw [if_pos (by simp [hcase])]
        have hset : (groups.set (gix + 1)
            (groups.get ⟨gix + 1, hlt2⟩ ++
              [shift_offset e (-(segStart divs (gix + 1)))])).getD
              (gix + 1) [] =
            groups.get ⟨gix + 1, hlt2⟩ ++
              [shift_offset e (-(segStart divs (gix + 1)))] := by
          simp [List.getD, List.getElem?_set_self, hlt2]
        rw [hset, List.map_cons, ← List.getD_eq_get groups [] hlt2,
          List.append_assoc]
        rfl
      · rw [if_neg (by
          simp only [decide_eq_true_eq, hcase]
          exact fun hh => hkg hh.symm)]
        have hset : (groups.set (gix + 1)
            (groups.get ⟨gix + 1, hlt2⟩ ++
              [shift_offset e (-(segStart divs (gix + 1)))])).getD k [] =
            groups.getD k [] := by
          simp [List.getD, List.getElem?_set_ne (Ne.symm hkg)]
        rw [hset]
/-- C2 (amended): for every probe string containing a pipe and entity list
whose start offsets are within the probe, avoid the delimiter positions,
and skip no segment (each entity's containing-segment index is at most one
past the previous entity's, starting at 0 or 1), `_split_alternatives`
returns the pipe-split segments together with exactly the reference
partition: each entity in the group of the first segment whose span
contains its start offset, rebased by that segment's start position, which
equals the cumulative length of all prior segments plus their
delimiters. -/
theorem c2_split_alternatives_partition (alt_text : Str)
    (es : List Entity) (hpipe : '|' ∈ alt_text)
    (hval : ∀ e ∈ es, e.start_offset ≤ (alt_text.length : Int) ∧
      e.start_offset ∉ (pipeDivs alt_text).map Int.ofNat)
    (hchain : noSkip ((pipeDivs alt_text).map Int.ofNat) 0 es = true) :
    split_alternatives alt_text es =
      .ok (pipeSplit alt_text,
        specGroups ((pipeDivs alt_text).map Int.ofNat)
          (pipeSplit alt_text).length es) ∧
    ∀ (i : Nat), i ≤ (pipeDivs alt_text).length →
      segStart ((pipeDivs alt_text).map Int.ofNat) i =
        ((((pipeSplit alt_text).take i).map List.length).sum : Int) + i := by
  have hlen2 : ¬ (pipeSplit alt_text).length < 2 := by
    rw [← pipeSplit_length_ge_two_iff] at hpipe
    omega
  have hsortI : ((pipeDivs alt_text).map Int.ofNat).Pairwise (· < ·) := by
    rw [List.pairwise_map]
    exact (pipeDivs_sorted alt_text).imp (fun h => Int.ofNat_lt.mpr h)
  have hdne : pipeDivs alt_text ≠ [] :=
    (pipeDivs_ne_nil_iff alt_text).mpr hpipe
  constructor
  · cases hd : (pipeDivs alt_text).map Int.ofNat with
    | nil =>
      exfalso
      apply hdne
      cases hn : pipeDivs alt_text with
      | nil => rfl
      | cons a l => rw [hn] at hd; simp at hd
    | cons d0 ds =>
      rw [split_alternatives_eq alt_text es hlen2 d0 ds hd]
      have hglen : (List.replicate (pipeSplit alt_text).length
          ([] : List Entity)).length = (d0 :: ds).length + 1 := by
        rw [List.length_replicate, ← hd, List.length_map,
          pipeDivs_length]
      have hd0 : (d0 :: ds).getD 0 (alt_text.length : Int) = d0 := rfl
      have hs0 : segStart (d0 :: ds) 0 = 0 := rfl
      obtain ⟨gs, hok, hlen, hdesc⟩ :=
        split_go_correct (alt_text.length : Int) (d0 :: ds)
          (hd ▸ hsortI) es 0
          (List.replicate (pipeSplit alt_text).length [])
          (by omega) hglen (fun e he => (hval e he).1)
          (hd ▸ hchain)
      rw [hs0, hd0] at hok
      rw [hok]
      have hgseq : gs = specGroups (d0 :: ds)
          (pipeSplit alt_text).length es := by
        have hlgs : gs.length = (pipeSplit alt_text).length := by
          rw [hlen, List.length_replicate]
        have hlsp : (specGroups (d0 :: ds)
            (pipeSplit alt_text).length es).length =
            (pipeSplit alt_text).length := by
          simp [specGroups]
        apply List.ext_get (by rw [hlgs, hlsp])
        intro j h1 h2
        have hj : j < (List.replicate (pipeSplit alt_text).length
            ([] : List Entity)).length := by
          rw [List.length_replicate, ← hlgs]
          exact h1
        have hdj := hdesc j hj
        have hrep : (List.replicate (pipeSplit alt_text).length
            ([] : List Entity)).getD j [] = [] := by
          simp [List.getD]
        rw [hrep, List.nil_append] at hdj
        rw [← List.getD_eq_get gs [] h1, hdj]
        have hjn : j < (pipeSplit alt_text).length := by
          rw [← hlgs]
          exact h1
        simp [specGroups]
      rw [hgseq]
      rfl
  · intro i hi
    cases i with
    | zero => simp [segStart]
    | succ k =>
      have hk : k < (pipeDivs alt_text).length := by omega
      have hkm : k < ((pipeDivs alt_text).map Int.ofNat).length := by
        rw [List.length_map]
        exact hk
      have h1 : segStart ((pipeDivs alt_text).map Int.ofNat) (k + 1) =
          ((pipeDivs alt_text).map Int.ofNat).getD k 0 + 1 := rfl
      rw [h1, List.getD_eq_get _ _ hkm]
      have h2 : ((pipeDivs alt_text).map Int.ofNat).get ⟨k, hkm⟩ =
          Int.ofNat ((pipeDivs alt_text).get ⟨k, hk⟩) := by
        simp
      rw [h2, pipeDivs_get alt_text k hk]
      simp only [Int.ofNat_eq_coe]
      push_cast [Nat.cast_list_sum]
      ring
/-- Witness for C2 (amended) on the probe `a|bc` with one entity in
segment 1. -/
theorem c2_witness :
    split_alternatives ['a', '|', 'b', 'c'] [entW] =
      .ok (pipeSplit ['a', '|', 'b', 'c'],
        specGroups ((pipeDivs ['a', '|', 'b', 'c']).map Int.ofNat)
          (pipeSplit ['a', '|', 'b', 'c']).length [entW]) ∧
    ∀ (i : Nat), i ≤ (pipeDivs ['a', '|', 'b', 'c']).length →
      segStart ((pipeDivs ['a', '|', 'b', 'c']).map Int.ofNat) i =
        ((((pipeSplit ['a', '|', 'b', 'c']).take i).map
          List.length).sum : Int) + i :=
  c2_split_alternatives_partition ['a', '|', 'b', 'c'] [entW]
    (by decide) (by decide) (by decide)
